import Mathlib

/-!
# Verification of the credential-pool manager of `src/key_rotation.py`

Shallow embedding of the key-rotation subsystem (classes `KeyHealth`,
`KeyPair`, `KeyPoolManager` and the functions `detect_rate_limit_error`
and `create_retry_decorator`).

Modelling conventions:
* timestamps are natural-number seconds; `datetime.now(timezone.utc)` is
  an explicit `now : Nat` parameter threaded through every operation;
  `timedelta(hours=1)` is `3600`, `timedelta(minutes=m)` is `60 * m`;
* Python `float` statistics (response times, weights) are `ℚ`;
* `Optional[datetime]` is `Option Nat`;
* the health names of the spec map onto the source enum as
  Healthy = `healthy`, RateLimited = `rateLimited`, CircuitOpen = `error`,
  Probation = `testing` (plus the source-only `disabled`);
* in-place mutation of a `KeyPair` / the pool becomes explicit state
  passing: operations return the updated record;
* only the round-robin selection strategy is embedded (the weighted /
  random / adaptive strategies draw random numbers); the claims under
  verification exercise selection only through round-robin pools or
  through the eligible set of an arbitrary pool.
-/

namespace KeyRotation

/-- Health status of an API key pair (`KeyHealth` in `key_rotation.py`). -/
inductive KeyHealth where
  | healthy
  | rateLimited
  | error
  | disabled
  | testing
deriving DecidableEq

/-- A Datadog API key pair with metadata: the `KeyPair` dataclass with its
`KeyUsageMetrics` field inlined (fields `totalRequests` through
`consecutiveFailures` are the metrics). -/
structure KeyPair where
  id : String
  apiKey : String
  appKey : String
  site : String
  health : KeyHealth
  totalRequests : Nat
  successfulRequests : Nat
  rateLimitedRequests : Nat
  errorRequests : Nat
  lastUsed : Option Nat
  lastRateLimit : Option Nat
  lastError : Option Nat
  averageResponseTime : ℚ
  consecutiveFailures : Nat
  rateLimitResetTime : Option Nat
  circuitBreakerResetTime : Option Nat
  weight : ℚ
deriving DecidableEq

/-- A freshly constructed key pair: the dataclass defaults
(`health = TESTING`, zeroed metrics, no reset timers, `weight = 1.0`). -/
def mkKeyPair (id apiKey appKey site : String) : KeyPair :=
  { id := id
    apiKey := apiKey
    appKey := appKey
    site := site
    health := KeyHealth.testing
    totalRequests := 0
    successfulRequests := 0
    rateLimitedRequests := 0
    errorRequests := 0
    lastUsed := none
    lastRateLimit := none
    lastError := none
    averageResponseTime := 0
    consecutiveFailures := 0
    rateLimitResetTime := none
    circuitBreakerResetTime := none
    weight := 1 }

/-- `KeyPair.is_available` (lines 69-88): auto-heals an expired rate limit
(`RATE_LIMITED` → `HEALTHY`) or an expired circuit breaker
(`ERROR` → `TESTING`), then reports whether the key is usable
(`health in [HEALTHY, TESTING]`).  Returns the flag together with the
(possibly healed) key, since Python mutates the key in place. -/
def isAvailable (k : KeyPair) (now : Nat) : Bool × KeyPair :=
  if k.health = KeyHealth.disabled then (false, k)
  else
    let k1 :=
      if k.health = KeyHealth.rateLimited then
        match k.rateLimitResetTime with
        | some r =>
            if r < now then
              { k with health := KeyHealth.healthy, rateLimitResetTime := none }
            else k
        | none => k
      else k
    let k2 :=
      if k1.health = KeyHealth.error then
        match k1.circuitBreakerResetTime with
        | some r =>
            if r < now then
              { k1 with health := KeyHealth.testing, circuitBreakerResetTime := none }
            else k1
        | none => k1
      else k1
    (decide (k2.health = KeyHealth.healthy ∨ k2.health = KeyHealth.testing), k2)

/-- `KeyPair.record_success` (lines 90-108). -/
def recordSuccess (k : KeyPair) (responseTime : ℚ) (now : Nat) : KeyPair :=
  let k1 := { k with
    totalRequests := k.totalRequests + 1
    successfulRequests := k.successfulRequests + 1
    lastUsed := some now
    consecutiveFailures := 0 }
  let k2 :=
    if k1.averageResponseTime = 0 then
      { k1 with averageResponseTime := responseTime }
    else
      { k1 with averageResponseTime :=
          (9 : ℚ) / 10 * k1.averageResponseTime + (1 : ℚ) / 10 * responseTime }
  if k2.health = KeyHealth.testing then { k2 with health := KeyHealth.healthy } else k2

/-- `KeyPair.record_rate_limit` (lines 110-122); the reset time defaults to
one hour from now when the caller supplies none (`reset_time or now + 1h`). -/
def recordRateLimit (k : KeyPair) (resetTime : Option Nat) (now : Nat) : KeyPair :=
  { k with
    totalRequests := k.totalRequests + 1
    rateLimitedRequests := k.rateLimitedRequests + 1
    lastRateLimit := some now
    health := KeyHealth.rateLimited
    rateLimitResetTime := some (resetTime.getD (now + 3600)) }

/-- `KeyPair.record_error` (lines 124-131); the `error_type` argument is only
logged and therefore omitted. -/
def recordError (k : KeyPair) (now : Nat) : KeyPair :=
  { k with
    totalRequests := k.totalRequests + 1
    errorRequests := k.errorRequests + 1
    lastError := some now
    consecutiveFailures := k.consecutiveFailures + 1 }

/-- `KeyPair.trigger_circuit_breaker` (lines 133-137): `timeout` is in
minutes in the source, hence `60 * timeoutMinutes` seconds here. -/
def triggerCircuitBreaker (k : KeyPair) (timeoutMinutes : Nat) (now : Nat) : KeyPair :=
  { k with
    health := KeyHealth.error
    circuitBreakerResetTime := some (now + 60 * timeoutMinutes) }

/-- `KeyPair.get_success_rate` (lines 139-143). -/
def getSuccessRate (k : KeyPair) : ℚ :=
  if k.totalRequests = 0 then 0
  else (k.successfulRequests : ℚ) / (k.totalRequests : ℚ)

/-- `KeyPair.get_weight` (lines 145-158). -/
def getWeight (k : KeyPair) : ℚ :=
  if 3 < k.consecutiveFailures then k.weight * ((1 : ℚ) / 10)
  else if 0 < k.consecutiveFailures then k.weight * ((1 : ℚ) / 2)
  else if (19 : ℚ) / 20 < getSuccessRate k then k.weight * ((6 : ℚ) / 5)
  else k.weight

/-- The pool state of `KeyPoolManager` restricted to what the round-robin
strategy and the circuit breaker use: the ordered key list, the
round-robin cursor `_current_index`, and the circuit-breaker
configuration. -/
structure Pool where
  keys : List KeyPair
  currentIndex : Nat
  circuitBreakerThreshold : Nat
  circuitBreakerTimeout : Nat
deriving DecidableEq

/-- Events routed by `KeyPoolManager.record_key_event`. -/
inductive KeyEvent where
  | success (responseTime : ℚ)
  | rateLimit (resetTime : Option Nat)
  | error
deriving DecidableEq

/-- The per-key effect of `KeyPoolManager.record_key_event` (lines 302-319):
dispatch on the event type; for errors, after recording, trigger the
circuit breaker when `consecutive_failures >= circuit_breaker_threshold`. -/
def applyEvent (threshold timeoutMinutes : Nat) (ev : KeyEvent) (now : Nat)
    (k : KeyPair) : KeyPair :=
  match ev with
  | KeyEvent.success rt => recordSuccess k rt now
  | KeyEvent.rateLimit reset => recordRateLimit k reset now
  | KeyEvent.error =>
      let k1 := recordError k now
      if threshold ≤ k1.consecutiveFailures then
        triggerCircuitBreaker k1 timeoutMinutes now
      else k1

/-- Replace the first key whose id matches (Python finds the first matching
key with `next(...)` and mutates that object; no match leaves the list
unchanged). -/
def updateFirst (f : KeyPair → KeyPair) (keyId : String) : List KeyPair → List KeyPair
  | [] => []
  | k :: rest =>
      if k.id = keyId then f k :: rest else k :: updateFirst f keyId rest

/-- `next((k for k in self.keys if k.id == key_id), None)`. -/
def findKey (keyId : String) : List KeyPair → Option KeyPair
  | [] => none
  | k :: rest => if k.id = keyId then some k else findKey keyId rest

/-- `KeyPoolManager.record_key_event` (lines 302-319). -/
def recordKeyEvent (p : Pool) (keyId : String) (ev : KeyEvent) (now : Nat) : Pool :=
  let f := applyEvent p.circuitBreakerThreshold p.circuitBreakerTimeout ev now
  { p with keys := updateFirst f keyId p.keys }

/-- The list comprehension of `KeyPoolManager.get_available_keys`
(lines 202-205): call `is_available` on each key (healing it in place) and
keep the keys that reported available. -/
def availFilter : List KeyPair → Nat → List KeyPair
  | [], _ => []
  | k :: rest, now =>
      let r := isAvailable k now
      if r.1 then r.2 :: availFilter rest now else availFilter rest now

/-- `KeyPoolManager.get_available_keys`: the returned available list plus the
pool whose keys have all been healed by the `is_available` calls. -/
def getAvailableKeys (p : Pool) (now : Nat) : List KeyPair × Pool :=
  (availFilter p.keys now,
   { p with keys := p.keys.map (fun k => (isAvailable k now).2) })

/-- `KeyPoolManager.get_key_by_strategy` (lines 207-227) specialised to the
round-robin strategy `_select_round_robin` (lines 229-236): pick
`available[_current_index % len(available)]` and advance the cursor modulo
the length of the available list. -/
def getKeyByStrategy (p : Pool) (now : Nat) : Option (KeyPair × Pool) :=
  let r := getAvailableKeys p now
  match r.1 with
  | [] => none
  | a :: rest =>
      let n := (a :: rest).length
      some ((a :: rest).getD (r.2.currentIndex % n) a,
            { r.2 with currentIndex := (r.2.currentIndex + 1) % n })

/-- Run `n` consecutive selections, collecting the selected keys in order
(used to state the round-robin fairness property). -/
def selectKeys (now : Nat) : Nat → Pool → List KeyPair × Pool
  | 0, p => ([], p)
  | n + 1, p =>
      match getKeyByStrategy p now with
      | none => ([], p)
      | some (k, p1) =>
          let r := selectKeys now n p1
          (k :: r.1, r.2)

/-- Bool-valued check that `n` is a prefix of `h` (Python `str.startswith`,
used to realise substring search). -/
def isPre : List Char → List Char → Bool
  | [], _ => true
  | _ :: _, [] => false
  | a :: as, b :: bs => a == b && isPre as bs

/-- Bool-valued substring check, the Python `needle in haystack` test. -/
def strIn (needle : List Char) : List Char → Bool
  | [] => decide (needle = [])
  | c :: t => isPre needle (c :: t) || strIn needle t

/-- The rate-limit indicator substrings of `detect_rate_limit_error`
(lines 481-487). -/
def rateLimitIndicators : List (List Char) :=
  ["rate limit".data, "429".data, "too many requests".data,
   "quota exceeded".data, "throttled".data]

/-- The classification test of `detect_rate_limit_error`:
`any(indicator in str(exception).lower() for indicator in ...)`. -/
def rateLimitMatch (e : String) : Bool :=
  rateLimitIndicators.any (fun ind => strIn ind (e.data.map Char.toLower))

/-- `detect_rate_limit_error` (lines 471-495): on a match it returns the
default reset time `now + 1 hour` (the source never extracts a reset time
from the error; the default is the only value produced). -/
def detectRateLimitError (e : String) (now : Nat) : Bool × Option Nat :=
  if rateLimitMatch e then (true, some (now + 3600)) else (false, none)

/-- The auth-failure test of the retry wrapper (line 554):
`"401" in str(e) or "403" in str(e)` on the raw (non-lowercased) text. -/
def authFailure (e : String) : Bool :=
  strIn ("401".data) e.data || strIn ("403".data) e.data

/-- Result of one `execute` run of the retry wrapper. -/
inductive ExecResult (α : Type) where
  | ok : α → ExecResult α
  | raised : String → ExecResult α
  | noKeyFailure : ExecResult α
  | fellThrough : ExecResult α
deriving DecidableEq

/-- The attempt loop of the wrapper built by `create_retry_decorator`
(lines 498-569).  The operation is a function of the selected key that
either returns a value or raises an exception with the given text.
Arguments: remaining attempts, current attempt index, pool, last captured
exception, count of operation invocations so far.  Returns the outcome,
the total number of operation invocations, and the final pool.  Wall-clock
time is held fixed at `now` for the whole run (the backoff sleeps and call
timings do not influence any control decision in the source). -/
def retryLoop {α : Type} (op : KeyPair → Except String α) (maxRetries : Nat) (now : Nat) :
    Nat → Nat → Pool → Option String → Nat → ExecResult α × Nat × Pool
  | 0, _, pool, lastExc, cnt =>
      (match lastExc with
       | some s => ExecResult.raised s
       | none => ExecResult.fellThrough, cnt, pool)
  | r + 1, attempt, pool, lastExc, cnt =>
      match getKeyByStrategy pool now with
      | none =>
          (match lastExc with
           | some s => ExecResult.raised s
           | none => ExecResult.noKeyFailure, cnt, pool)
      | some (kp, pool1) =>
          match op kp with
          | Except.ok v =>
              (ExecResult.ok v, cnt + 1,
               recordKeyEvent pool1 kp.id (KeyEvent.success 0) now)
          | Except.error s =>
              let rl := detectRateLimitError s now
              if rl.1 then
                retryLoop op maxRetries now r (attempt + 1)
                  (recordKeyEvent pool1 kp.id (KeyEvent.rateLimit rl.2) now)
                  (some s) (cnt + 1)
              else
                let pool2 := recordKeyEvent pool1 kp.id KeyEvent.error now
                if authFailure s then
                  (ExecResult.raised s, cnt + 1, pool2)
                else if attempt = maxRetries - 1 then
                  (ExecResult.raised s, cnt + 1, pool2)
                else
                  retryLoop op maxRetries now r (attempt + 1) pool2 (some s) (cnt + 1)

/-- `execute`: the decorated call, entered with a full budget of
`max_retries` attempts. -/
def execute {α : Type} (p : Pool) (op : KeyPair → Except String α)
    (maxRetries : Nat) (now : Nat) : ExecResult α × Nat × Pool :=
  retryLoop op maxRetries now maxRetries 0 p none 0

/-- Dispatcher for sequences of the three per-key recording operations
(`record_success` / `record_rate_limit` / `record_error`), used to state
the counter-monotonicity invariant. -/
def applyRecord (now : Nat) (k : KeyPair) : KeyEvent → KeyPair
  | KeyEvent.success rt => recordSuccess k rt now
  | KeyEvent.rateLimit reset => recordRateLimit k reset now
  | KeyEvent.error => recordError k now

/-- A fresh credential used in concrete counterexamples. -/
def freshKeyEx : KeyPair := mkKeyPair ("k1") ("api") ("app") ("us3.datadoghq.com")

/-- A fresh credential used in the witness of the rate-limit frame claim. -/
def kEx10 : KeyPair := mkKeyPair ("w10") ("api") ("app") ("us3.datadoghq.com")

/-- A credential whose circuit breaker is open with reset time 3, used in
the witness of the eligibility claim. -/
def kEx4 : KeyPair :=
  { mkKeyPair ("w4") ("api") ("app") ("us3.datadoghq.com") with
    health := KeyHealth.error
    circuitBreakerResetTime := some 3 }

/-- First concrete credential of the two-key example pools. -/
def kA : KeyPair := mkKeyPair ("A") ("apiA") ("appA") ("us3.datadoghq.com")

/-- Second concrete credential of the two-key example pools. -/
def kB : KeyPair := mkKeyPair ("B") ("apiB") ("appB") ("us3.datadoghq.com")

/-- A freshly constructed two-key pool with the default circuit-breaker
configuration (threshold 5, timeout 10 minutes). -/
def poolAB : Pool :=
  { keys := [kA, kB]
    currentIndex := 0
    circuitBreakerThreshold := 5
    circuitBreakerTimeout := 10 }

/-- A freshly constructed two-key pool with circuit-breaker threshold 2,
used in the circuit-breaker witness. -/
def poolCB : Pool :=
  { keys := [kA, kB]
    currentIndex := 0
    circuitBreakerThreshold := 2
    circuitBreakerTimeout := 10 }

/-! ## Basic facts about the per-key recording operations -/

theorem recordSuccess_eq (k : KeyPair) (rt : ℚ) (now : Nat) :
    recordSuccess k rt now =
      { k with
        totalRequests := k.totalRequests + 1
        successfulRequests := k.successfulRequests + 1
        lastUsed := some now
        consecutiveFailures := 0
        averageResponseTime :=
          if k.averageResponseTime = 0 then rt
          else (9 : ℚ) / 10 * k.averageResponseTime + (1 : ℚ) / 10 * rt
        health := if k.health = KeyHealth.testing then KeyHealth.healthy else k.health } := by
  simp only [recordSuccess]
  split <;> split <;> rfl

theorem applyRecord_counters_le (now : Nat) (k : KeyPair) (e : KeyEvent) :
    k.totalRequests ≤ (applyRecord now k e).totalRequests ∧
    k.successfulRequests ≤ (applyRecord now k e).successfulRequests ∧
    k.rateLimitedRequests ≤ (applyRecord now k e).rateLimitedRequests ∧
    k.errorRequests ≤ (applyRecord now k e).errorRequests := by
  cases e <;>
    simp [applyRecord, recordSuccess_eq, recordRateLimit, recordError]

theorem foldl_applyRecord_counters_le (now : Nat) (ops : List KeyEvent) :
    ∀ k : KeyPair,
      k.totalRequests ≤ (ops.foldl (applyRecord now) k).totalRequests ∧
      k.successfulRequests ≤ (ops.foldl (applyRecord now) k).successfulRequests ∧
      k.rateLimitedRequests ≤ (ops.foldl (applyRecord now) k).rateLimitedRequests ∧
      k.errorRequests ≤ (ops.foldl (applyRecord now) k).errorRequests := by
  induction ops with
  | nil => intro k; simp
  | cons e t ih =>
      intro k
      have h1 := applyRecord_counters_le now k e
      have h2 := ih (applyRecord now k e)
      simp only [List.foldl_cons]
      exact ⟨le_trans h1.1 h2.1, le_trans h1.2.1 h2.2.1,
        le_trans h1.2.2.1 h2.2.2.1, le_trans h1.2.2.2 h2.2.2.2⟩

/-- C6: `record_success(latency)` increments `total_attempts` and successes
by exactly one, resets `consecutive_failures` to zero, updates the smoothed
average latency by `avg = avg == 0 ? latency : 0.9*avg + 0.1*latency`, and
promotes Probation (source state `TESTING`) to Healthy while leaving every
other health state unchanged. -/
theorem c6_record_success_spec (k : KeyPair) (rt : ℚ) (now : Nat) :
    (recordSuccess k rt now).totalRequests = k.totalRequests + 1 ∧
    (recordSuccess k rt now).successfulRequests = k.successfulRequests + 1 ∧
    (recordSuccess k rt now).consecutiveFailures = 0 ∧
    (recordSuccess k rt now).averageResponseTime =
      (if k.averageResponseTime = 0 then rt
       else (9 : ℚ) / 10 * k.averageResponseTime + (1 : ℚ) / 10 * rt) ∧
    (recordSuccess k rt now).health =
      (if k.health = KeyHealth.testing then KeyHealth.healthy else k.health) := by
  simp [recordSuccess_eq]

/-- C8: across any sequence of the three recording operations the four
statistics counters (`total_requests`, `successful_requests`,
`rate_limited_requests`, `error_requests`) are monotonically
non-decreasing, both over a single operation and over a whole sequence,
while any recorded success resets `consecutive_failures` to zero. -/
theorem c8_counters_monotone (now : Nat) (k : KeyPair) :
    (∀ e : KeyEvent,
      k.totalRequests ≤ (applyRecord now k e).totalRequests ∧
      k.successfulRequests ≤ (applyRecord now k e).successfulRequests ∧
      k.rateLimitedRequests ≤ (applyRecord now k e).rateLimitedRequests ∧
      k.errorRequests ≤ (applyRecord now k e).errorRequests) ∧
    (∀ rt : ℚ, (applyRecord now k (KeyEvent.success rt)).consecutiveFailures = 0) ∧
    ∀ ops : List KeyEvent,
      k.totalRequests ≤ (ops.foldl (applyRecord now) k).totalRequests ∧
      k.successfulRequests ≤ (ops.foldl (applyRecord now) k).successfulRequests ∧
      k.rateLimitedRequests ≤ (ops.foldl (applyRecord now) k).rateLimitedRequests ∧
      k.errorRequests ≤ (ops.foldl (applyRecord now) k).errorRequests := by
  refine ⟨applyRecord_counters_le now k, ?_, fun ops => foldl_applyRecord_counters_le now ops k⟩
  intro rt
  simp [applyRecord, recordSuccess_eq]

/-- C9 counterexample: starting from a fresh credential and recording the
three outcomes in the order error, success, success, the success rate is
`2/3` but `consecutive_failures` is `0`, not `1` — the success recorded
after the error reset the counter, refuting the quantification over orders. -/
theorem c9_counterexample :
    getSuccessRate
        (applyRecord 0
          (applyRecord 0 (applyRecord 0 freshKeyEx KeyEvent.error) (KeyEvent.success 0))
          (KeyEvent.success 0)) = 2 / 3 ∧
    (applyRecord 0
        (applyRecord 0 (applyRecord 0 freshKeyEx KeyEvent.error) (KeyEvent.success 0))
        (KeyEvent.success 0)).consecutiveFailures = 0 ∧
    ¬ (applyRecord 0
        (applyRecord 0 (applyRecord 0 freshKeyEx KeyEvent.error) (KeyEvent.success 0))
        (KeyEvent.success 0)).consecutiveFailures = 1 := by
  refine ⟨?_, by decide, by decide⟩
  norm_num [applyRecord, recordSuccess_eq, recordError, freshKeyEx, mkKeyPair, getSuccessRate]

/-- C9 (amended): from a fresh credential, recording 2 successes and 1 error
in any of the three interleavings yields `success_rate() = 2/3`; the
consecutive-failure count is `1` exactly when the error is recorded after
the last success (it is reset to `0` by any later success). -/
theorem c9_amended_success_rate (i a b s : String) (l1 l2 : ℚ) (now : Nat) :
    (getSuccessRate
        (applyRecord now
          (applyRecord now (applyRecord now (mkKeyPair i a b s) (KeyEvent.success l1))
            (KeyEvent.success l2)) KeyEvent.error) = 2 / 3 ∧
      (applyRecord now
        (applyRecord now (applyRecord now (mkKeyPair i a b s) (KeyEvent.success l1))
          (KeyEvent.success l2)) KeyEvent.error).consecutiveFailures = 1) ∧
    (getSuccessRate
        (applyRecord now
          (applyRecord now (applyRecord now (mkKeyPair i a b s) (KeyEvent.success l1))
            KeyEvent.error) (KeyEvent.success l2)) = 2 / 3 ∧
      (applyRecord now
        (applyRecord now (applyRecord now (mkKeyPair i a b s) (KeyEvent.success l1))
          KeyEvent.error) (KeyEvent.success l2)).consecutiveFailures = 0) ∧
    (getSuccessRate
        (applyRecord now
          (applyRecord now (applyRecord now (mkKeyPair i a b s) KeyEvent.error)
            (KeyEvent.success l1)) (KeyEvent.success l2)) = 2 / 3 ∧
      (applyRecord now
        (applyRecord now (applyRecord now (mkKeyPair i a b s) KeyEvent.error)
          (KeyEvent.success l1)) (KeyEvent.success l2)).consecutiveFailures = 0) := by
  norm_num [applyRecord, recordSuccess_eq, recordError, mkKeyPair, getSuccessRate]

theorem recordRateLimit_iterate_cf (r : Option Nat) (now : Nat) :
    ∀ (n : Nat) (k : KeyPair),
      ((fun j => recordRateLimit j r now)^[n] k).consecutiveFailures = k.consecutiveFailures := by
  intro n
  induction n with
  | zero => intro k; simp
  | succ m ih =>
      intro k
      rw [Function.iterate_succ_apply]
      rw [ih]
      simp [recordRateLimit]

/-- C10: `record_rate_limit` leaves `consecutive_failures` unchanged, the
event routing of the pool for a rate-limit outcome is independent of the
circuit-breaker configuration (it never consults the threshold), and any
positive number of consecutive rate-limit recordings leaves the credential
in `RATE_LIMITED`, never in `ERROR` (the CircuitOpen state of the spec). -/
theorem c10_rate_limit_no_circuit (k : KeyPair) (r : Option Nat) (now n : Nat)
    (hn : 1 ≤ n) :
    (recordRateLimit k r now).consecutiveFailures = k.consecutiveFailures ∧
    (∀ t t' w w' : Nat,
      applyEvent t w (KeyEvent.rateLimit r) now k =
        applyEvent t' w' (KeyEvent.rateLimit r) now k) ∧
    ((fun j => recordRateLimit j r now)^[n] k).consecutiveFailures =
      k.consecutiveFailures ∧
    ((fun j => recordRateLimit j r now)^[n] k).health = KeyHealth.rateLimited ∧
    ¬ ((fun j => recordRateLimit j r now)^[n] k).health = KeyHealth.error := by
  obtain ⟨m, rfl⟩ : ∃ m, n = m + 1 := ⟨n - 1, by omega⟩
  refine ⟨by simp [recordRateLimit], fun t t' w w' => rfl,
    recordRateLimit_iterate_cf r now (m + 1) k, ?_, ?_⟩ <;>
    rw [Function.iterate_succ_apply'] <;> simp [recordRateLimit]

/-- Witness for C10 at a concrete credential with one rate-limit event. -/
theorem c10_witness :
    (recordRateLimit kEx10 none 7).consecutiveFailures = kEx10.consecutiveFailures ∧
    (∀ t t' w w' : Nat,
      applyEvent t w (KeyEvent.rateLimit none) 7 kEx10 =
        applyEvent t' w' (KeyEvent.rateLimit none) 7 kEx10) ∧
    ((fun j => recordRateLimit j none 7)^[1] kEx10).consecutiveFailures =
      kEx10.consecutiveFailures ∧
    ((fun j => recordRateLimit j none 7)^[1] kEx10).health = KeyHealth.rateLimited ∧
    ¬ ((fun j => recordRateLimit j none 7)^[1] kEx10).health = KeyHealth.error :=
  c10_rate_limit_no_circuit kEx10 none 7 1 (by decide)

/-! ## Substring search and rate-limit classification -/

theorem isPre_iff (n : List Char) : ∀ h : List Char,
    isPre n h = true ↔ ∃ t, h = n ++ t := by
  induction n with
  | nil => intro h; simp [isPre]
  | cons a as ih =>
      intro h
      cases h with
      | nil => simp [isPre]
      | cons b bs =>
          simp only [isPre, Bool.and_eq_true, beq_iff_eq, ih]
          constructor
          · rintro ⟨rfl, t, rfl⟩
            exact ⟨t, rfl⟩
          · rintro ⟨t, ht⟩
            simp only [List.cons_append, List.cons.injEq] at ht
            exact ⟨ht.1.symm, t, ht.2⟩

theorem strIn_iff (n : List Char) : ∀ h : List Char,
    strIn n h = true ↔ ∃ l1 l2, h = l1 ++ n ++ l2 := by
  intro h
  induction h with
  | nil =>
      simp only [strIn, decide_eq_true_eq]
      constructor
      · rintro rfl; exact ⟨[], [], rfl⟩
      · rintro ⟨l1, l2, hl⟩
        rcases List.append_eq_nil.mp (List.append_eq_nil.mp hl.symm).1 with ⟨-, h2⟩
        exact h2
  | cons c t ih =>
      simp only [strIn, Bool.or_eq_true, isPre_iff, ih]
      constructor
      · rintro (⟨t2, ht⟩ | ⟨l1, l2, rfl⟩)
        · exact ⟨[], t2, by simp [ht]⟩
        · exact ⟨c :: l1, l2, rfl⟩
      · rintro ⟨l1, l2, hl⟩
        cases l1 with
        | nil => exact Or.inl ⟨l2, by simpa using hl⟩
        | cons x xs =>
            simp only [List.cons_append, List.cons.injEq] at hl
            exact Or.inr ⟨xs, l2, hl.2⟩

/-- C7: `detect_rate_limit_error` classifies an exception as rate limited
exactly when its lowercased text contains one of the substrings
"rate limit", "429", "too many requests", "quota exceeded", "throttled";
when it does, the returned reset time is the default `now + 1 hour` (the
source never extracts an upstream value, so the default is the only value
ever supplied), and otherwise the reset time is `none`. -/
theorem c7_detect_rate_limit_spec (e : String) (now : Nat) :
    ((detectRateLimitError e now).1 = true ↔
      ∃ ind ∈ rateLimitIndicators,
        ∃ l1 l2, e.data.map Char.toLower = l1 ++ ind ++ l2) ∧
    (detectRateLimitError e now).2 =
      (if (detectRateLimitError e now).1 then some (now + 3600) else none) := by
  constructor
  · rw [show (detectRateLimitError e now).1 = rateLimitMatch e by
      simp [detectRateLimitError]; split <;> simp_all]
    simp [rateLimitMatch, List.any_eq_true, strIn_iff]
  · by_cases hm : rateLimitMatch e <;> simp [detectRateLimitError, hm]

/-! ## The eligibility / auto-heal state machine -/

theorem isAvailable_disabled (k : KeyPair) (now : Nat)
    (h : k.health = KeyHealth.disabled) : isAvailable k now = (false, k) := by
  simp [isAvailable, h]

theorem isAvailable_stable (k : KeyPair) (now : Nat)
    (h : k.health = KeyHealth.healthy ∨ k.health = KeyHealth.testing) :
    isAvailable k now = (true, k) := by
  rcases h with h | h <;> simp [isAvailable, h]

theorem isAvailable_circuit_expired (k : KeyPair) (now r : Nat)
    (hh : k.health = KeyHealth.error) (hr : k.circuitBreakerResetTime = some r)
    (hlt : r < now) :
    isAvailable k now =
      (true, { k with health := KeyHealth.testing, circuitBreakerResetTime := none }) := by
  simp [isAvailable, hh, hr, hlt]

theorem isAvailable_circuit_open (k : KeyPair) (now r : Nat)
    (hh : k.health = KeyHealth.error) (hr : k.circuitBreakerResetTime = some r)
    (hge : ¬ r < now) :
    isAvailable k now = (false, k) := by
  simp [isAvailable, hh, hr, hge]

theorem isAvailable_circuit_none (k : KeyPair) (now : Nat)
    (hh : k.health = KeyHealth.error) (hr : k.circuitBreakerResetTime = none) :
    isAvailable k now = (false, k) := by
  simp [isAvailable, hh, hr]

theorem isAvailable_rl_expired (k : KeyPair) (now r : Nat)
    (hh : k.health = KeyHealth.rateLimited) (hr : k.rateLimitResetTime = some r)
    (hlt : r < now) :
    isAvailable k now =
      (true, { k with health := KeyHealth.healthy, rateLimitResetTime := none }) := by
  simp [isAvailable, hh, hr, hlt]

theorem isAvailable_rl_active (k : KeyPair) (now r : Nat)
    (hh : k.health = KeyHealth.rateLimited) (hr : k.rateLimitResetTime = some r)
    (hge : ¬ r < now) :
    isAvailable k now = (false, k) := by
  simp [isAvailable, hh, hr, hge]

theorem isAvailable_rl_none (k : KeyPair) (now : Nat)
    (hh : k.health = KeyHealth.rateLimited) (hr : k.rateLimitResetTime = none) :
    isAvailable k now = (false, k) := by
  simp [isAvailable, hh, hr]

/-- C4: `is_available` transitions an expired circuit breaker
(`ERROR` = the spec's CircuitOpen) to `TESTING` (= Probation) and returns
true, transitions an expired rate limit to `HEALTHY` and returns true,
otherwise leaves the key unchanged and returns true exactly when the
health is `HEALTHY` or `TESTING`, and repeating the call without
intervening events gives the same result and the same final state. -/
theorem c4_is_available_spec (k : KeyPair) (now : Nat) :
    (∀ r, k.health = KeyHealth.error → k.circuitBreakerResetTime = some r → r < now →
      isAvailable k now =
        (true, { k with health := KeyHealth.testing, circuitBreakerResetTime := none })) ∧
    (∀ r, k.health = KeyHealth.rateLimited → k.rateLimitResetTime = some r → r < now →
      isAvailable k now =
        (true, { k with health := KeyHealth.healthy, rateLimitResetTime := none })) ∧
    ((¬ (k.health = KeyHealth.error ∧ ∃ r, k.circuitBreakerResetTime = some r ∧ r < now)) →
      (¬ (k.health = KeyHealth.rateLimited ∧ ∃ r, k.rateLimitResetTime = some r ∧ r < now)) →
      isAvailable k now =
        (decide (k.health = KeyHealth.healthy ∨ k.health = KeyHealth.testing), k)) ∧
    isAvailable (isAvailable k now).2 now = isAvailable k now := by
  refine ⟨fun r hh hr hlt => isAvailable_circuit_expired k now r hh hr hlt,
    fun r hh hr hlt => isAvailable_rl_expired k now r hh hr hlt, ?_, ?_⟩
  · intro h1 h2
    cases hh : k.health with
    | healthy => rw [isAvailable_stable k now (Or.inl hh)]; simp [hh]
    | testing => rw [isAvailable_stable k now (Or.inr hh)]; simp [hh]
    | disabled => rw [isAvailable_disabled k now hh]; simp [hh]
    | error =>
        cases hr : k.circuitBreakerResetTime with
        | none => rw [isAvailable_circuit_none k now hh hr]; simp [hh]
        | some r =>
            have hge : ¬ r < now := fun hlt => h1 ⟨hh, r, hr, hlt⟩
            rw [isAvailable_circuit_open k now r hh hr hge]; simp [hh]
    | rateLimited =>
        cases hr : k.rateLimitResetTime with
        | none => rw [isAvailable_rl_none k now hh hr]; simp [hh]
        | some r =>
            have hge : ¬ r < now := fun hlt => h2 ⟨hh, r, hr, hlt⟩
            rw [isAvailable_rl_active k now r hh hr hge]; simp [hh]
  · cases hh : k.health with
    | healthy => simp [isAvailable_stable k now (Or.inl hh)]
    | testing => simp [isAvailable_stable k now (Or.inr hh)]
    | disabled => simp [isAvailable_disabled k now hh]
    | error =>
        cases hr : k.circuitBreakerResetTime with
        | none => simp [isAvailable_circuit_none k now hh hr]
        | some r =>
            by_cases hlt : r < now
            · rw [isAvailable_circuit_expired k now r hh hr hlt]
              exact isAvailable_stable _ now (Or.inr rfl)
            · simp [isAvailable_circuit_open k now r hh hr hlt]
    | rateLimited =>
        cases hr : k.rateLimitResetTime with
        | none => simp [isAvailable_rl_none k now hh hr]
        | some r =>
            by_cases hlt : r < now
            · rw [isAvailable_rl_expired k now r hh hr hlt]
              exact isAvailable_stable _ now (Or.inl rfl)
            · simp [isAvailable_rl_active k now r hh hr hlt]

/-- Witness for C4: a key whose circuit breaker expired at time 3 heals to
`TESTING` and becomes available at time 5. -/
theorem c4_witness :
    isAvailable kEx4 5 =
      (true, { kEx4 with health := KeyHealth.testing, circuitBreakerResetTime := none }) :=
  (c4_is_available_spec kEx4 5).1 3 rfl rfl (by decide)

/-! ## The circuit breaker at the pool level -/

theorem isAvailable_id (k : KeyPair) (now : Nat) : ((isAvailable k now).2).id = k.id := by
  cases hh : k.health with
  | healthy => simp [isAvailable_stable k now (Or.inl hh)]
  | testing => simp [isAvailable_stable k now (Or.inr hh)]
  | disabled => simp [isAvailable_disabled k now hh]
  | error =>
      cases hr : k.circuitBreakerResetTime with
      | none => simp [isAvailable_circuit_none k now hh hr]
      | some r =>
          by_cases hlt : r < now
          · simp [isAvailable_circuit_expired k now r hh hr hlt]
          · simp [isAvailable_circuit_open k now r hh hr hlt]
  | rateLimited =>
      cases hr : k.rateLimitResetTime with
      | none => simp [isAvailable_rl_none k now hh hr]
      | some r =>
          by_cases hlt : r < now
          · simp [isAvailable_rl_expired k now r hh hr hlt]
          · simp [isAvailable_rl_active k now r hh hr hlt]

theorem applyEvent_id (t w : Nat) (ev : KeyEvent) (now : Nat) (k : KeyPair) :
    (applyEvent t w ev now k).id = k.id := by
  cases ev with
  | success rt => simp [applyEvent, recordSuccess_eq]
  | rateLimit r => rfl
  | error =>
      simp only [applyEvent]
      split <;> rfl

theorem iterate_id_pres (g : KeyPair → KeyPair) (hg : ∀ k, (g k).id = k.id) :
    ∀ (n : Nat) (k : KeyPair), (g^[n] k).id = k.id := by
  intro n
  induction n with
  | zero => intro k; simp
  | succ m ih =>
      intro k
      rw [Function.iterate_succ_apply', hg, ih]

theorem applyError_cf (t w now : Nat) (k : KeyPair) :
    (applyEvent t w KeyEvent.error now k).consecutiveFailures =
      k.consecutiveFailures + 1 := by
  simp only [applyEvent]
  split <;> simp [triggerCircuitBreaker, recordError]

theorem applyError_iterate_cf (t w now : Nat) :
    ∀ (n : Nat) (k : KeyPair),
      ((applyEvent t w KeyEvent.error now)^[n] k).consecutiveFailures =
        k.consecutiveFailures + n := by
  intro n
  induction n with
  | zero => intro k; simp
  | succ m ih =>
      intro k
      rw [Function.iterate_succ_apply', applyError_cf, ih]
      omega

theorem applyError_iterate_breaker (t w now n : Nat) (hn : 1 ≤ n) (ht : t ≤ n)
    (k : KeyPair) :
    ((applyEvent t w KeyEvent.error now)^[n] k).health = KeyHealth.error ∧
    ((applyEvent t w KeyEvent.error now)^[n] k).circuitBreakerResetTime =
      some (now + 60 * w) := by
  obtain ⟨m, rfl⟩ : ∃ m, n = m + 1 := ⟨n - 1, by omega⟩
  rw [Function.iterate_succ_apply']
  have hcf := applyError_iterate_cf t w now m k
  have hcond : t ≤
      (recordError ((applyEvent t w KeyEvent.error now)^[m] k) now).consecutiveFailures := by
    simp [recordError, hcf]
    omega
  simp only [applyEvent]
  rw [if_pos hcond]
  simp [triggerCircuitBreaker]

theorem updateFirst_map_id (g : KeyPair → KeyPair) (hg : ∀ k, (g k).id = k.id)
    (i : String) :
    ∀ l : List KeyPair, (updateFirst g i l).map KeyPair.id = l.map KeyPair.id := by
  intro l
  induction l with
  | nil => rfl
  | cons k rest ih => by_cases hk : k.id = i <;> simp [updateFirst, hk, hg, ih]

theorem findKey_updateFirst (g : KeyPair → KeyPair) (hg : ∀ k, (g k).id = k.id)
    (i : String) :
    ∀ (l : List KeyPair) (k0 : KeyPair), findKey i l = some k0 →
      findKey i (updateFirst g i l) = some (g k0) := by
  intro l
  induction l with
  | nil => intro k0 h; simp [findKey] at h
  | cons k rest ih =>
      intro k0 h
      by_cases hk : k.id = i
      · simp only [findKey, if_pos hk, Option.some.injEq] at h
        subst h
        simp [updateFirst, findKey, hk, hg]
      · simp only [findKey, if_neg hk] at h
        simp [updateFirst, findKey, hk, ih k0 h]

theorem updateFirst_comp (g g' : KeyPair → KeyPair) (hg' : ∀ k, (g' k).id = k.id)
    (i : String) :
    ∀ l : List KeyPair,
      updateFirst g i (updateFirst g' i l) = updateFirst (fun k => g (g' k)) i l := by
  intro l
  induction l with
  | nil => rfl
  | cons k rest ih =>
      by_cases hk : k.id = i
      · simp [updateFirst, hk, hg']
      · simp [updateFirst, hk, ih]

theorem updateFirst_id (i : String) :
    ∀ l : List KeyPair, updateFirst (fun k => k) i l = l := by
  intro l
  induction l with
  | nil => rfl
  | cons k rest ih => by_cases hk : k.id = i <;> simp [updateFirst, hk, ih]

theorem updateFirst_iterate (g : KeyPair → KeyPair) (hg : ∀ k, (g k).id = k.id)
    (i : String) :
    ∀ (n : Nat) (l : List KeyPair), (updateFirst g i)^[n] l = updateFirst (g^[n]) i l := by
  intro n
  induction n with
  | zero =>
      intro l
      simpa using (updateFirst_id i l).symm
  | succ m ih =>
      intro l
      rw [Function.iterate_succ_apply', ih,
        updateFirst_comp g (g^[m]) (fun k => iterate_id_pres g hg m k) i]
      have hfun : (fun k => g (g^[m] k)) = g^[m + 1] :=
        funext fun k => (Function.iterate_succ_apply' g m k).symm
      rw [hfun]

theorem recordKeyEvent_iterate (p : Pool) (i : String) (ev : KeyEvent) (now : Nat) :
    ∀ n : Nat,
      (fun q => recordKeyEvent q i ev now)^[n] p =
        { p with keys :=
            (updateFirst (applyEvent p.circuitBreakerThreshold p.circuitBreakerTimeout ev now)
              i)^[n] p.keys } := by
  intro n
  induction n with
  | zero => rfl
  | succ m ih =>
      rw [Function.iterate_succ_apply', ih, Function.iterate_succ_apply']
      rfl

theorem mem_availFilter_ids (now : Nat) :
    ∀ (l : List KeyPair) (j : String),
      j ∈ (availFilter l now).map KeyPair.id → j ∈ l.map KeyPair.id := by
  intro l
  induction l with
  | nil => intro j hj; simp [availFilter] at hj
  | cons k rest ih =>
      intro j hj
      simp only [availFilter] at hj
      simp only [List.map_cons, List.mem_cons]
      split at hj
      · simp only [List.map_cons, List.mem_cons] at hj
        rcases hj with hj | hj
        · rw [isAvailable_id] at hj
          exact Or.inl hj
        · exact Or.inr (ih j hj)
      · exact Or.inr (ih j hj)

theorem availFilter_mem_iff (now : Nat) (i : String) :
    ∀ (l : List KeyPair) (k0 : KeyPair),
      (l.map KeyPair.id).Nodup → findKey i l = some k0 →
      (i ∈ (availFilter l now).map KeyPair.id ↔ (isAvailable k0 now).1 = true) := by
  intro l
  induction l with
  | nil => intro k0 _ h; simp [findKey] at h
  | cons k rest ih =>
      intro k0 hnd hf
      have hnd1 : k.id ∉ rest.map KeyPair.id := by
        simp only [List.map_cons, List.nodup_cons] at hnd
        exact hnd.1
      have hnd2 : (rest.map KeyPair.id).Nodup := by
        simp only [List.map_cons, List.nodup_cons] at hnd
        exact hnd.2
      by_cases hk : k.id = i
      · have hk0 : k0 = k := by
          simp only [findKey, if_pos hk, Option.some.injEq] at hf
          exact hf.symm
        subst hk0
        simp only [availFilter]
        by_cases hb : (isAvailable k0 now).1 = true
        · rw [if_pos hb]
          simp only [List.map_cons, List.mem_cons, isAvailable_id]
          constructor
          · intro _; exact hb
          · intro _; exact Or.inl hk.symm
        · rw [if_neg hb]
          constructor
          · intro hmem
            exfalso
            apply hnd1
            rw [hk]
            exact mem_availFilter_ids now rest i hmem
          · intro hb2; exact absurd hb2 hb
      · have hf' : findKey i rest = some k0 := by
          simpa only [findKey, if_neg hk] using hf
        have hrec := ih k0 hnd2 hf'
        simp only [availFilter]
        split
        · simp only [List.map_cons, List.mem_cons, isAvailable_id]
          constructor
          · rintro (h | h)
            · exact absurd h.symm hk
            · exact hrec.mp h
          · intro h; exact Or.inr (hrec.mpr h)
        · exact hrec

/-- C3: after `circuit_breaker_threshold` consecutive error events recorded
through `record_key_event` for a credential id present in a pool with
distinct ids, that credential has health `ERROR` (the CircuitOpen state of
the spec), its circuit reset time is `now + circuit_breaker_timeout`
(minutes, hence `60 *` in seconds), it is excluded from the available list
at every time up to the reset time, and it is available again (healed to
`TESTING`) at every later time. -/
theorem c3_circuit_breaker_opens (p : Pool) (i : String) (k0 : KeyPair) (now : Nat)
    (hnd : (p.keys.map KeyPair.id).Nodup)
    (hfind : findKey i p.keys = some k0)
    (hthr : 1 ≤ p.circuitBreakerThreshold) :
    let pN := (fun q => recordKeyEvent q i KeyEvent.error now)^[p.circuitBreakerThreshold] p
    ∃ kN, findKey i pN.keys = some kN ∧
      kN.health = KeyHealth.error ∧
      kN.circuitBreakerResetTime = some (now + 60 * p.circuitBreakerTimeout) ∧
      (∀ t, t ≤ now + 60 * p.circuitBreakerTimeout →
        i ∉ (getAvailableKeys pN t).1.map KeyPair.id) ∧
      (∀ t, now + 60 * p.circuitBreakerTimeout < t →
        i ∈ (getAvailableKeys pN t).1.map KeyPair.id) := by
  intro pN
  set f := applyEvent p.circuitBreakerThreshold p.circuitBreakerTimeout KeyEvent.error now
    with hfdef
  set g := f^[p.circuitBreakerThreshold] with hgdef
  have hfid : ∀ k : KeyPair, (f k).id = k.id :=
    applyEvent_id p.circuitBreakerThreshold p.circuitBreakerTimeout KeyEvent.error now
  have hgid : ∀ k : KeyPair, (g k).id = k.id :=
    fun k => iterate_id_pres f hfid p.circuitBreakerThreshold k
  have hpN : pN = { p with keys := updateFirst g i p.keys } := by
    rw [show pN = (fun q => recordKeyEvent q i KeyEvent.error now)^[p.circuitBreakerThreshold] p
      from rfl]
    rw [recordKeyEvent_iterate p i KeyEvent.error now p.circuitBreakerThreshold]
    rw [hgdef, hfdef]
    rw [updateFirst_iterate _
      (applyEvent_id p.circuitBreakerThreshold p.circuitBreakerTimeout KeyEvent.error now)
      i p.circuitBreakerThreshold p.keys]
  have hbrk : (g k0).health = KeyHealth.error ∧
      (g k0).circuitBreakerResetTime = some (now + 60 * p.circuitBreakerTimeout) := by
    rw [hgdef, hfdef]
    exact applyError_iterate_breaker p.circuitBreakerThreshold
      p.circuitBreakerTimeout now p.circuitBreakerThreshold hthr le_rfl k0
  have hfind2 : findKey i pN.keys = some (g k0) := by
    rw [hpN]
    exact findKey_updateFirst g hgid i p.keys k0 hfind
  have hnd2 : (pN.keys.map KeyPair.id).Nodup := by
    rw [hpN]
    simpa [updateFirst_map_id g hgid i p.keys] using hnd
  refine ⟨g k0, hfind2, hbrk.1, hbrk.2, ?_, ?_⟩
  · intro t ht hc
    have hmem := (availFilter_mem_iff t i pN.keys _ hnd2 hfind2).mp hc
    rw [isAvailable_circuit_open _ t _ hbrk.1 hbrk.2 (by omega)] at hmem
    simp at hmem
  · intro t ht
    apply (availFilter_mem_iff t i pN.keys _ hnd2 hfind2).mpr
    rw [isAvailable_circuit_expired _ t _ hbrk.1 hbrk.2 (by omega)]

/-- Witness for C3 at a concrete two-key pool with threshold 2: two error
events for key A open its circuit until time `100 + 600`. -/
theorem c3_witness :
    let pN := (fun q => recordKeyEvent q ("A") KeyEvent.error 100)^[poolCB.circuitBreakerThreshold] poolCB
    ∃ kN, findKey ("A") pN.keys = some kN ∧
      kN.health = KeyHealth.error ∧
      kN.circuitBreakerResetTime = some (100 + 60 * poolCB.circuitBreakerTimeout) ∧
      (∀ t, t ≤ 100 + 60 * poolCB.circuitBreakerTimeout →
        ("A") ∉ (getAvailableKeys pN t).1.map KeyPair.id) ∧
      (∀ t, 100 + 60 * poolCB.circuitBreakerTimeout < t →
        ("A") ∈ (getAvailableKeys pN t).1.map KeyPair.id) :=
  c3_circuit_breaker_opens poolCB ("A") kA 100 (by decide) rfl (by decide)

/-! ## Round-robin selection -/

theorem availFilter_stable (now : Nat) :
    ∀ l : List KeyPair,
      (∀ k ∈ l, k.health = KeyHealth.healthy ∨ k.health = KeyHealth.testing) →
      availFilter l now = l := by
  intro l
  induction l with
  | nil => intro _; rfl
  | cons k rest ih =>
      intro h
      simp only [availFilter]
      rw [isAvailable_stable k now (h k (List.mem_cons_self k rest))]
      simp [ih fun j hj => h j (List.mem_cons_of_mem k hj)]

theorem map_heal_stable (now : Nat) :
    ∀ l : List KeyPair,
      (∀ k ∈ l, k.health = KeyHealth.healthy ∨ k.health = KeyHealth.testing) →
      l.map (fun k => (isAvailable k now).2) = l := by
  intro l
  induction l with
  | nil => intro _; rfl
  | cons k rest ih =>
      intro h
      simp only [List.map_cons]
      rw [isAvailable_stable k now (h k (List.mem_cons_self k rest))]
      simp [ih fun j hj => h j (List.mem_cons_of_mem k hj)]

theorem getKeyByStrategy_stable (p : Pool) (now : Nat) (a : KeyPair) (rest : List KeyPair)
    (hst : ∀ k ∈ p.keys, k.health = KeyHealth.healthy ∨ k.health = KeyHealth.testing)
    (hkeys : p.keys = a :: rest) :
    getKeyByStrategy p now =
      some (p.keys.getD (p.currentIndex % p.keys.length) a,
            { p with currentIndex := (p.currentIndex + 1) % p.keys.length }) := by
  obtain ⟨keys, ci, t, w⟩ := p
  simp only at hkeys hst
  subst hkeys
  simp only [getKeyByStrategy, getAvailableKeys]
  rw [availFilter_stable now (a :: rest) hst, map_heal_stable now (a :: rest) hst]

theorem rotate_take_cons (l : List KeyPair) (a : KeyPair) (c m : Nat)
    (hm : m + 1 ≤ l.length) :
    l.getD (c % l.length) a :: (l.rotate ((c + 1) % l.length)).take m =
      (l.rotate c).take (m + 1) := by
  have hlen : 0 < l.length := by omega
  rw [List.rotate_mod l (c + 1), show c + 1 = c + 1 from rfl, ← List.rotate_rotate l c 1]
  obtain ⟨b, t, hbt⟩ : ∃ b t, l.rotate c = b :: t := by
    cases hr : l.rotate c with
    | nil =>
        have := List.length_rotate l c
        rw [hr] at this
        simp at this
        omega
    | cons b t => exact ⟨b, t, rfl⟩
  rw [hbt]
  have h3 : (b :: t).rotate 1 = t ++ [b] := by
    simpa using List.rotate_cons_succ t b 0
  rw [h3]
  have htl : m ≤ t.length := by
    have hlb : (b :: t).length = l.length := by rw [← hbt, List.length_rotate]
    simp at hlb
    omega
  rw [List.take_append_of_le_length htl, List.take_succ_cons]
  congr 1
  have h0 : (l.rotate c).get ⟨0, by rw [hbt]; simp⟩ = b := by
    simp [hbt]
  rw [List.get_rotate] at h0
  rw [List.getD_eq_get l a (Nat.mod_lt c hlen), ← h0]
  congr 1
  simp

theorem selectKeys_stable (now : Nat) :
    ∀ (n : Nat) (p : Pool),
      (∀ k ∈ p.keys, k.health = KeyHealth.healthy ∨ k.health = KeyHealth.testing) →
      n ≤ p.keys.length →
      (selectKeys now n p).1 = (p.keys.rotate p.currentIndex).take n := by
  intro n
  induction n with
  | zero => intro p _ _; simp [selectKeys]
  | succ m ih =>
      intro p hst hn
      obtain ⟨a, rest, hkeys⟩ : ∃ a rest, p.keys = a :: rest := by
        cases hk : p.keys with
        | nil => rw [hk] at hn; simp at hn
        | cons a rest => exact ⟨a, rest, rfl⟩
      have hsel := getKeyByStrategy_stable p now a rest hst hkeys
      simp only [selectKeys, hsel]
      have hih := ih { p with currentIndex := (p.currentIndex + 1) % p.keys.length }
        (by simpa using hst) (by simpa using Nat.le_of_succ_le hn)
      simp only at hih
      rw [hih]
      exact rotate_take_cons p.keys a p.currentIndex m hn

/-- C5 counterexample: in the fresh two-key pool (insertion order A, B) one
selection advances the cursor; the next window of `N = 2` consecutive
selections returns B then A — each credential exactly once, but not in
insertion order, refuting the claim for arbitrary windows. -/
theorem c5_counterexample :
    (selectKeys 0 2 (selectKeys 0 1 poolAB).2).1.map KeyPair.id = ["B", "A"] ∧
    poolAB.keys.map KeyPair.id = ["A", "B"] ∧
    ¬ (selectKeys 0 2 (selectKeys 0 1 poolAB).2).1.map KeyPair.id =
        poolAB.keys.map KeyPair.id := by
  refine ⟨by decide, by decide, by decide⟩

/-- C5 (amended): for a pool of `N` credentials that are all eligible and
stay eligible, `N` consecutive round-robin selections return each
credential exactly once, in insertion order rotated by the cursor value at
the start of the window; in particular the first `N` selections of a
freshly constructed pool (cursor 0) are in insertion order. -/
theorem c5_amended_round_robin_rotation (p : Pool) (now : Nat)
    (hst : ∀ k ∈ p.keys, k.health = KeyHealth.healthy ∨ k.health = KeyHealth.testing) :
    (selectKeys now p.keys.length p).1 = p.keys.rotate p.currentIndex ∧
    (selectKeys now p.keys.length p).1.Perm p.keys := by
  have h := selectKeys_stable now p.keys.length p hst le_rfl
  have h2 : (p.keys.rotate p.currentIndex).take p.keys.length =
      p.keys.rotate p.currentIndex := by
    rw [← List.length_rotate p.keys p.currentIndex, List.take_length]
  rw [h2] at h
  refine ⟨h, ?_⟩
  rw [h]
  exact List.rotate_perm p.keys p.currentIndex

/-- Witness for the amended C5 on the fresh two-key pool: the first two
selections are exactly the keys in insertion order (rotation by cursor 0). -/
theorem c5_amended_witness :
    (selectKeys 0 poolAB.keys.length poolAB).1 = poolAB.keys.rotate poolAB.currentIndex ∧
    (selectKeys 0 poolAB.keys.length poolAB).1.Perm poolAB.keys :=
  c5_amended_round_robin_rotation poolAB 0 (by decide)

/-! ## The retry / rotation executor -/

theorem rateLimitMatch_iff (e : String) :
    rateLimitMatch e = true ↔
      ∃ ind ∈ rateLimitIndicators,
        ∃ l1 l2, e.data.map Char.toLower = l1 ++ ind ++ l2 := by
  simp [rateLimitMatch, List.any_eq_true, strIn_iff]

theorem availFilter_ne_nil (now : Nat) :
    ∀ l : List KeyPair, (∃ k ∈ l, (isAvailable k now).1 = true) →
      availFilter l now ≠ [] := by
  intro l
  induction l with
  | nil =>
      rintro ⟨k, hk, -⟩
      simp at hk
  | cons k rest ih =>
      rintro ⟨j, hj, hja⟩
      simp only [availFilter]
      rcases List.mem_cons.mp hj with rfl | hj2
      · rw [if_pos hja]; simp
      · split
        · simp
        · exact ih ⟨j, hj2, hja⟩

/-- C1 counterexample: a two-key pool with both keys eligible, an operation
that always raises an exception whose text contains "401" but is also
rate-limit flavored ("429 rate limit"), and `max_retries = 2 > 1`.  The
rate-limit classification is checked first in the source, so the run
consumes 2 invocations instead of re-raising after exactly 1. -/
theorem c1_counterexample :
    (execute poolAB
        ((fun _ => Except.error ("429 rate limit (401 Unauthorized)")) :
          KeyPair → Except String Nat) 2 0).2.1 = 2 ∧
    ¬ (execute poolAB
        ((fun _ => Except.error ("429 rate limit (401 Unauthorized)")) :
          KeyPair → Except String Nat) 2 0).2.1 = 1 := by
  exact ⟨by decide, by decide⟩

/-- C1 (amended): for every pool with at least one eligible credential and
`max_retries ≥ 1`, an operation that always raises an exception whose text
contains "401" and is not rate-limit flavored (its lowercased text contains
none of the rate-limit indicator substrings) is re-raised after exactly one
invocation, regardless of the retry budget. -/
theorem c1_amended_auth_raises_once {α : Type} (p : Pool) (op : KeyPair → Except String α)
    (s : String) (m now : Nat)
    (hm : 1 ≤ m)
    (helig : ∃ k ∈ p.keys, (isAvailable k now).1 = true)
    (hop : ∀ k, op k = Except.error s)
    (h401 : ∃ l1 l2, s.data = l1 ++ "401".data ++ l2)
    (hnorl : ∀ ind ∈ rateLimitIndicators,
      ¬ ∃ l1 l2, s.data.map Char.toLower = l1 ++ ind ++ l2) :
    (execute p op m now).1 = ExecResult.raised s ∧ (execute p op m now).2.1 = 1 := by
  have hmatch : rateLimitMatch s = false := by
    cases hb : rateLimitMatch s
    · rfl
    · obtain ⟨ind, hmem, hex⟩ := (rateLimitMatch_iff s).mp hb
      exact absurd hex (hnorl ind hmem)
  have hauth : authFailure s = true := by
    obtain ⟨l1, l2, hs⟩ := h401
    simp only [authFailure, Bool.or_eq_true, strIn_iff]
    exact Or.inl ⟨l1, l2, hs⟩
  obtain ⟨m0, rfl⟩ : ∃ m0, m = m0 + 1 := ⟨m - 1, by omega⟩
  obtain ⟨a, rest, havail⟩ : ∃ a rest, availFilter p.keys now = a :: rest := by
    cases h : availFilter p.keys now with
    | nil => exact absurd h (availFilter_ne_nil now p.keys helig)
    | cons a rest => exact ⟨a, rest, rfl⟩
  constructor <;>
    simp [execute, retryLoop, getKeyByStrategy, getAvailableKeys, havail, hop,
      detectRateLimitError, hmatch, hauth]

/-- Witness for the amended C1: a fresh two-key pool and an operation that
always raises "401 Unauthorized" with a budget of 3 retries — the run
raises that text after exactly one invocation. -/
theorem c1_amended_witness :
    (execute poolAB
        ((fun _ => Except.error ("401 Unauthorized")) : KeyPair → Except String Nat)
        3 0).1 = ExecResult.raised ("401 Unauthorized") ∧
    (execute poolAB
        ((fun _ => Except.error ("401 Unauthorized")) : KeyPair → Except String Nat)
        3 0).2.1 = 1 :=
  c1_amended_auth_raises_once poolAB _ ("401 Unauthorized") 3 0 (by decide)
    (by decide) (fun _ => rfl)
    ⟨[], (" Unauthorized").data, by decide⟩
    (by
      intro ind hind hex
      exact absurd ((rateLimitMatch_iff ("401 Unauthorized")).mpr ⟨ind, hind, hex⟩)
        (by decide))

/-- C2: in a fresh pool holding exactly credentials A then B (both
eligible), with an operation that raises a rate-limit-flavored exception on
A and succeeds on B, `execute` with `max_retries ≥ 2` rotates to B and
returns the success result of B after exactly 2 underlying invocations. -/
theorem c2_rotation_after_rate_limit {α : Type} (ka kb : KeyPair)
    (op : KeyPair → Except String α) (s : String) (v : α) (m now t w : Nat)
    (hka : ka.health = KeyHealth.healthy ∨ ka.health = KeyHealth.testing)
    (hkb : kb.health = KeyHealth.healthy ∨ kb.health = KeyHealth.testing)
    (hopA : op ka = Except.error s)
    (hopB : op kb = Except.ok v)
    (hrl : ∃ ind ∈ rateLimitIndicators,
      ∃ l1 l2, s.data.map Char.toLower = l1 ++ ind ++ l2)
    (hm : 2 ≤ m) :
    (execute (Pool.mk [ka, kb] 0 t w) op m now).1 = ExecResult.ok v ∧
    (execute (Pool.mk [ka, kb] 0 t w) op m now).2.1 = 2 := by
  have hia : isAvailable ka now = (true, ka) := isAvailable_stable ka now hka
  have hib : isAvailable kb now = (true, kb) := isAvailable_stable kb now hkb
  have hrlm : rateLimitMatch s = true := (rateLimitMatch_iff s).mpr hrl
  obtain ⟨m0, rfl⟩ : ∃ m0, m = m0 + 1 + 1 := ⟨m - 2, by omega⟩
  have h1 : getKeyByStrategy (Pool.mk [ka, kb] 0 t w) now =
      some (ka, Pool.mk [ka, kb] 1 t w) := by
    simp [getKeyByStrategy, getAvailableKeys, availFilter, hia, hib]
  have hka2h : (recordRateLimit ka (some (now + 3600)) now).health =
      KeyHealth.rateLimited := by simp [recordRateLimit]
  have hka2r : (recordRateLimit ka (some (now + 3600)) now).rateLimitResetTime =
      some (now + 3600) := by simp [recordRateLimit]
  have hiaka2 : isAvailable (recordRateLimit ka (some (now + 3600)) now) now =
      (false, recordRateLimit ka (some (now + 3600)) now) :=
    isAvailable_rl_active _ now (now + 3600) hka2h hka2r (by omega)
  have h2 : recordKeyEvent (Pool.mk [ka, kb] 1 t w) ka.id
      (KeyEvent.rateLimit (some (now + 3600))) now =
      Pool.mk [recordRateLimit ka (some (now + 3600)) now, kb] 1 t w := by
    simp [recordKeyEvent, updateFirst, applyEvent]
  have h3 : getKeyByStrategy
      (Pool.mk [recordRateLimit ka (some (now + 3600)) now, kb] 1 t w) now =
      some (kb, Pool.mk [recordRateLimit ka (some (now + 3600)) now, kb] 0 t w) := by
    simp [getKeyByStrategy, getAvailableKeys, availFilter, hiaka2, hib]
  constructor <;>
    simp [execute, retryLoop, h1, hopA, detectRateLimitError, hrlm, h2, h3, hopB]

/-- Witness for C2: the fresh pool [A, B] with an operation raising
"429 Too Many Requests" on A and returning 42 on B, run with 2 retries,
returns 42 after exactly 2 invocations. -/
theorem c2_witness :
    (execute (Pool.mk [kA, kB] 0 5 10)
        ((fun k => if k.id = ("A") then Except.error ("429 Too Many Requests")
          else Except.ok 42) : KeyPair → Except String Nat) 2 0).1 =
      ExecResult.ok 42 ∧
    (execute (Pool.mk [kA, kB] 0 5 10)
        ((fun k => if k.id = ("A") then Except.error ("429 Too Many Requests")
          else Except.ok 42) : KeyPair → Except String Nat) 2 0).2.1 = 2 :=
  c2_rotation_after_rate_limit kA kB _ ("429 Too Many Requests") 42 2 0 5 10
    (Or.inr rfl) (Or.inr rfl) rfl rfl
    ((rateLimitMatch_iff ("429 Too Many Requests")).mp (by decide))
    (by decide)

end KeyRotation
